import Mathlib

/-!
# Verification of the cal-ai nutrition parsing and aggregation core

Shallow embedding of the core logic of `src/app/page.tsx`:

* `parseNutritionResult` : the line-based nutrition-text parser,
* `extractNumericValue`  : the first-numeric-token extractor,
* the daily-totals reduces of the `Home` component,
* the `NutritionPieChart` "no data" fallback.

JavaScript strings are modelled by `String`, with the JS primitives
`split('\n')`, `trim()` and case-insensitive matching defined explicitly
on the underlying character list so that all definitions evaluate.
JS `number` is modelled by `ℚ` (the values handled here are short decimal
literals, on which JS float arithmetic agrees with exact rational
arithmetic).

The anchored case-insensitive test `/^label:\s*/i.test(t)` succeeds
exactly when the lowercased line starts with the (lowercase) label,
since `\s*` also matches the empty string; it is modelled by a prefix
test on the lowercased characters.  The corresponding
`t.replace(/^label:\s*/i, '').trim()` is modelled by dropping the
label's characters and trimming: the regex erases the label plus a run
of whitespace, and the subsequent `trim` removes any remaining leading
whitespace, so both compute the same string.
-/

/-- ASCII whitespace as matched by JS `trim`. -/
def isJsWhitespace (c : Char) : Bool :=
  c = ' ' || c = '\t' || c = '\r' || c = '\n' || c = '\x0b' || c = '\x0c'

/-- `trim` on a character list: drop whitespace at both ends. -/
def trimChars (l : List Char) : List Char :=
  ((l.dropWhile isJsWhitespace).reverse.dropWhile isJsWhitespace).reverse

/-- Model of JS `line.trim()`. -/
def jsTrim (s : String) : String :=
  String.mk (trimChars s.data)

/-- Model of JS `result.split('\n')`: cut at every newline, keeping empty
pieces (so the result always has one more piece than there are newlines). -/
def splitLinesAux : List Char → List Char → List String
  | [], acc => [String.mk acc.reverse]
  | c :: cs, acc =>
    if c = '\n' then String.mk acc.reverse :: splitLinesAux cs []
    else splitLinesAux cs (c :: acc)

/-- JS `result.split('\n')` on a string. -/
def splitLines (s : String) : List String :=
  splitLinesAux s.data []

/-- JS `tipLines.join(' ')`. -/
def joinWithSpace : List String → String
  | [] => ""
  | [x] => x
  | x :: y :: xs => x ++ " " ++ joinWithSpace (y :: xs)

/-- `interface NutritionData` of page.tsx: five string fields. -/
structure NutritionData where
  calories : String
  protein : String
  carbs : String
  fat : String
  tip : String
deriving Repr, DecidableEq

/-- `interface MealEntry` of page.tsx.  The `Date` timestamp is modelled as
its epoch-milliseconds integer. -/
structure MealEntry where
  id : Int
  name : String
  calories : ℚ
  protein : ℚ
  carbs : ℚ
  fat : ℚ
  timestamp : Int
deriving Repr, DecidableEq

/-- Model of the anchored case-insensitive test `/^label:\s*/i.test(t)`. -/
def matchesLabel (label : String) (t : String) : Bool :=
  label.data.isPrefixOf (t.data.map Char.toLower)

/-- Model of `t.replace(/^label:\s*/i, '').trim()` for a line `t` that
matches the label. -/
def stripLabel (label : String) (t : String) : String :=
  jsTrim (String.mk (t.data.drop label.data.length))

/-- The `for (const line of lines)` loop of `parseNutritionResult`,
threading the mutable state `(nutritionData, tipFound, tipLines)`. -/
def parseLines : List String → NutritionData → Bool → List String →
    NutritionData × Bool × List String
  | [], nd, tipFound, tipLines => (nd, tipFound, tipLines)
  | line :: rest, nd, tipFound, tipLines =>
    let t := jsTrim line
    if matchesLabel "calories:" t then
      parseLines rest { nd with calories := stripLabel "calories:" t } tipFound tipLines
    else if matchesLabel "protein:" t then
      parseLines rest { nd with protein := stripLabel "protein:" t } tipFound tipLines
    else if matchesLabel "carbs:" t then
      parseLines rest { nd with carbs := stripLabel "carbs:" t } tipFound tipLines
    else if matchesLabel "fat:" t then
      parseLines rest { nd with fat := stripLabel "fat:" t } tipFound tipLines
    else if matchesLabel "tip:" t then
      parseLines rest { nd with tip := stripLabel "tip:" t } true tipLines
    else if tipFound && t.length > 0 then
      parseLines rest nd tipFound (tipLines ++ [t])
    else
      parseLines rest nd tipFound tipLines

/-- `parseNutritionResult` of page.tsx (lines 49–90): split on `'\n'`,
run the loop from the all-empty record, then append the collected tip
continuation lines (space-joined) to the tip field. -/
def parseNutritionResult (result : String) : NutritionData :=
  let lines := splitLines result
  let r := parseLines lines
    { calories := "", protein := "", carbs := "", fat := "", tip := "" } false []
  let nutritionData := r.1
  let tipLines := r.2.2
  if tipLines.length > 0 then
    { nutritionData with tip := nutritionData.tip ++ " " ++ joinWithSpace tipLines }
  else
    nutritionData

/-- The numeric value of a digit string, as `foldl` over the characters. -/
def natOfDigits (l : List Char) : ℕ :=
  l.foldl (fun a c => 10 * a + (c.toNat - '0'.toNat)) 0

/-- The leftmost match of the regex `/(\d+(?:\.\d+)?)/` in a character
list: scan for the first digit, take the maximal digit run, then an
optional fractional part (a point followed by at least one digit). -/
def firstNumericToken : List Char → Option (List Char)
  | [] => none
  | c :: cs =>
    if c.isDigit then
      let intDigits := c :: cs.takeWhile Char.isDigit
      let rest := cs.dropWhile Char.isDigit
      if rest.head? = some '.' then
        let fracDigits := (rest.drop 1).takeWhile Char.isDigit
        if fracDigits.isEmpty then some intDigits
        else some (intDigits ++ '.' :: fracDigits)
      else some intDigits
    else firstNumericToken cs

/-- JS `parseFloat` on a matched numeric token (digits, or digits, a
point and more digits): its exact rational value. -/
def ratOfToken (t : List Char) : ℚ :=
  let intPart := t.takeWhile Char.isDigit
  let rest := t.dropWhile Char.isDigit
  if rest.isEmpty then (natOfDigits intPart : ℚ)
  else (natOfDigits intPart : ℚ) + (natOfDigits (rest.drop 1) : ℚ) / 10 ^ (rest.drop 1).length

/-- `extractNumericValue` of page.tsx (lines 97–100):
`const match = str.match(/(\d+(?:\.\d+)?)/); return match ? parseFloat(match[1]) : 0;`. -/
def extractNumericValue (str : String) : ℚ :=
  match firstNumericToken str.data with
  | some t => ratOfToken t
  | none => 0

/-- The four daily-totals reduces of the `Home` component
(page.tsx lines 427–452), field by field. -/
def dailyTotalCalories (todaysMeals : List MealEntry) : ℚ :=
  todaysMeals.foldl (fun sum meal => sum + meal.calories) 0

/-- Daily protein total (page.tsx line 436). -/
def dailyTotalProtein (todaysMeals : List MealEntry) : ℚ :=
  todaysMeals.foldl (fun sum meal => sum + meal.protein) 0

/-- Daily carbs total (page.tsx line 442). -/
def dailyTotalCarbs (todaysMeals : List MealEntry) : ℚ :=
  todaysMeals.foldl (fun sum meal => sum + meal.carbs) 0

/-- Daily fat total (page.tsx line 448). -/
def dailyTotalFat (todaysMeals : List MealEntry) : ℚ :=
  todaysMeals.foldl (fun sum meal => sum + meal.fat) 0

/-- What `NutritionPieChart` renders: either the "No macro data available
for chart" fallback, or a pie over the three extracted magnitudes. -/
inductive ChartView where
  | noData
  | pie (proteinValue carbsValue fatValue : ℚ)
deriving Repr, DecidableEq

/-- `NutritionPieChart` of page.tsx (lines 110–134): extract the three
magnitudes and fall back to "no data" when all three are zero. -/
def nutritionPieChart (nutritionData : NutritionData) : ChartView :=
  let proteinValue := extractNumericValue nutritionData.protein
  let carbsValue := extractNumericValue nutritionData.carbs
  let fatValue := extractNumericValue nutritionData.fat
  if proteinValue = 0 ∧ carbsValue = 0 ∧ fatValue = 0 then
    ChartView.noData
  else
    ChartView.pie proteinValue carbsValue fatValue

/-- A trimmed line that matches one of the five label tests of the parser. -/
def isLabelLine (t : String) : Bool :=
  matchesLabel "calories:" t || matchesLabel "protein:" t || matchesLabel "carbs:" t ||
    matchesLabel "fat:" t || matchesLabel "tip:" t

/-- Modelled from the spec (§4.1 steps 4–5), for comparison with the
parser: once the tip label has been seen with current remainder `cur`,
the remaining raw lines determine the final tip remainder (a later
`tip:` match wins) and the list of continuation lines — the subsequent
non-empty trimmed lines matching none of the five label tests, in
encounter order. -/
def specTipAfter (cur : String) : List String → String × List String
  | [] => (cur, [])
  | l :: rest =>
    let t := jsTrim l
    if matchesLabel "tip:" t then specTipAfter (stripLabel "tip:" t) rest
    else if isLabelLine t then specTipAfter cur rest
    else if t.length > 0 then
      let r := specTipAfter cur rest
      (r.1, t :: r.2)
    else specTipAfter cur rest

/-- Modelled from the spec, for comparison with the parser: scan the
lines for the first `tip:` match; when found, return the final tip
remainder and the continuation lines gathered after it. -/
def specTipScan : List String → Option (String × List String)
  | [] => none
  | l :: rest =>
    let t := jsTrim l
    if matchesLabel "tip:" t then some (specTipAfter (stripLabel "tip:" t) rest)
    else specTipScan rest

theorem isPrefixOf_false_of_head_ne {a b : Char} {la lb t : List Char} (hab : a ≠ b)
    (h : (a :: la).isPrefixOf t = true) : (b :: lb).isPrefixOf t = false := by
  cases t with
  | nil => simp [List.isPrefixOf] at h
  | cons c cs =>
    simp only [List.isPrefixOf, Bool.and_eq_true, beq_iff_eq] at h
    simp only [List.isPrefixOf, Bool.and_eq_false_iff, beq_eq_false_iff_ne, ne_eq]
    exact Or.inl (fun hbc => hab (h.1.trans hbc.symm))

theorem matchesLabel_false_of_head_ne {l₁ l₂ : String} {a b : Char} {la lb : List Char}
    (h₁ : l₁.data = a :: la) (h₂ : l₂.data = b :: lb) (hab : a ≠ b) (t : String)
    (h : matchesLabel l₁ t = true) : matchesLabel l₂ t = false := by
  unfold matchesLabel at h ⊢
  rw [h₁] at h
  rw [h₂]
  exact isPrefixOf_false_of_head_ne hab h

theorem tip_false_of_calories {t : String} (h : matchesLabel "calories:" t = true) :
    matchesLabel "tip:" t = false :=
  matchesLabel_false_of_head_ne rfl rfl (by decide) t h

theorem tip_false_of_protein {t : String} (h : matchesLabel "protein:" t = true) :
    matchesLabel "tip:" t = false :=
  matchesLabel_false_of_head_ne rfl rfl (by decide) t h

theorem tip_false_of_carbs {t : String} (h : matchesLabel "carbs:" t = true) :
    matchesLabel "tip:" t = false :=
  matchesLabel_false_of_head_ne rfl rfl (by decide) t h

theorem tip_false_of_fat {t : String} (h : matchesLabel "fat:" t = true) :
    matchesLabel "tip:" t = false :=
  matchesLabel_false_of_head_ne rfl rfl (by decide) t h

theorem calories_false_of_tip {t : String} (h : matchesLabel "tip:" t = true) :
    matchesLabel "calories:" t = false :=
  matchesLabel_false_of_head_ne rfl rfl (by decide) t h

theorem protein_false_of_tip {t : String} (h : matchesLabel "tip:" t = true) :
    matchesLabel "protein:" t = false :=
  matchesLabel_false_of_head_ne rfl rfl (by decide) t h

theorem carbs_false_of_tip {t : String} (h : matchesLabel "tip:" t = true) :
    matchesLabel "carbs:" t = false :=
  matchesLabel_false_of_head_ne rfl rfl (by decide) t h

theorem fat_false_of_tip {t : String} (h : matchesLabel "tip:" t = true) :
    matchesLabel "fat:" t = false :=
  matchesLabel_false_of_head_ne rfl rfl (by decide) t h

/-- Once `tipFound` is set, the loop computes exactly the spec-side tip
remainder and appends exactly the spec-side continuation lines. -/
theorem parseLines_tipTrue (lines : List String) (nd : NutritionData) (tl : List String) :
    (parseLines lines nd true tl).1.tip = (specTipAfter nd.tip lines).1 ∧
    (parseLines lines nd true tl).2.2 = tl ++ (specTipAfter nd.tip lines).2 := by
  induction lines generalizing nd tl with
  | nil => simp [parseLines, specTipAfter]
  | cons l rest ih =>
    by_cases h1 : matchesLabel "calories:" (jsTrim l)
    · have ht := tip_false_of_calories h1
      have hL : isLabelLine (jsTrim l) = true := by simp [isLabelLine, h1]
      simpa [parseLines, specTipAfter, h1, ht, hL] using ih { nd with calories := stripLabel "calories:" (jsTrim l) } tl
    · by_cases h2 : matchesLabel "protein:" (jsTrim l)
      · have ht := tip_false_of_protein h2
        have hL : isLabelLine (jsTrim l) = true := by simp [isLabelLine, h2]
        simpa [parseLines, specTipAfter, h1, h2, ht, hL] using ih { nd with protein := stripLabel "protein:" (jsTrim l) } tl
      · by_cases h3 : matchesLabel "carbs:" (jsTrim l)
        · have ht := tip_false_of_carbs h3
          have hL : isLabelLine (jsTrim l) = true := by simp [isLabelLine, h3]
          simpa [parseLines, specTipAfter, h1, h2, h3, ht, hL] using ih { nd with carbs := stripLabel "carbs:" (jsTrim l) } tl
        · by_cases h4 : matchesLabel "fat:" (jsTrim l)
          · have ht := tip_false_of_fat h4
            have hL : isLabelLine (jsTrim l) = true := by simp [isLabelLine, h4]
            simpa [parseLines, specTipAfter, h1, h2, h3, h4, ht, hL] using ih { nd with fat := stripLabel "fat:" (jsTrim l) } tl
          · by_cases h5 : matchesLabel "tip:" (jsTrim l)
            · simpa [parseLines, specTipAfter, h1, h2, h3, h4, h5] using ih { nd with tip := stripLabel "tip:" (jsTrim l) } tl
            · have hL : isLabelLine (jsTrim l) = false := by
                simp [isLabelLine, h1, h2, h3, h4, h5]
              by_cases h6 : 0 < (jsTrim l).length
              · have := ih nd (tl ++ [jsTrim l])
                simp only [parseLines, specTipAfter, h1, h2, h3, h4, h5, hL, h6, if_true,
                  if_false, Bool.true_and, decide_eq_true_eq, Bool.false_eq_true,
                  List.append_assoc, List.cons_append, List.nil_append] at this ⊢
                exact ⟨this.1, this.2⟩
              · simpa [parseLines, specTipAfter, h1, h2, h3, h4, h5, hL, h6] using ih nd tl

/-- While no line matches the tip label, the loop starting from
`tipFound = false` leaves the tip field, the flag and the collected
continuation lines unchanged. -/
theorem parseLines_tipFalse (lines : List String) (nd : NutritionData) (tl : List String)
    (h : ∀ l ∈ lines, matchesLabel "tip:" (jsTrim l) = false) :
    (parseLines lines nd false tl).1.tip = nd.tip ∧
    (parseLines lines nd false tl).2.1 = false ∧
    (parseLines lines nd false tl).2.2 = tl := by
  induction lines generalizing nd tl with
  | nil => simp [parseLines]
  | cons l rest ih =>
    have hl := h l (by simp)
    have hr : ∀ x ∈ rest, matchesLabel "tip:" (jsTrim x) = false :=
      fun x hx => h x (by simp [hx])
    by_cases h1 : matchesLabel "calories:" (jsTrim l)
    · simpa [parseLines, h1] using ih { nd with calories := stripLabel "calories:" (jsTrim l) } tl hr
    · by_cases h2 : matchesLabel "protein:" (jsTrim l)
      · simpa [parseLines, h1, h2] using ih { nd with protein := stripLabel "protein:" (jsTrim l) } tl hr
      · by_cases h3 : matchesLabel "carbs:" (jsTrim l)
        · simpa [parseLines, h1, h2, h3] using ih { nd with carbs := stripLabel "carbs:" (jsTrim l) } tl hr
        · by_cases h4 : matchesLabel "fat:" (jsTrim l)
          · simpa [parseLines, h1, h2, h3, h4] using ih { nd with fat := stripLabel "fat:" (jsTrim l) } tl hr
          · simpa [parseLines, h1, h2, h3, h4, hl] using ih nd tl hr

/-- The loop starting from `tipFound = false`, on lines whose spec-side
tip scan succeeds: the tip field is the scanned remainder, and exactly
the scanned continuation lines are appended. -/
theorem parseLines_scan (lines : List String) (nd : NutritionData) (tl : List String)
    (c : String) (cs : List String) (h : specTipScan lines = some (c, cs)) :
    (parseLines lines nd false tl).1.tip = c ∧
    (parseLines lines nd false tl).2.2 = tl ++ cs := by
  induction lines generalizing nd tl with
  | nil => simp [specTipScan] at h
  | cons l rest ih =>
    by_cases h5 : matchesLabel "tip:" (jsTrim l)
    · have h1 := calories_false_of_tip h5
      have h2 := protein_false_of_tip h5
      have h3 := carbs_false_of_tip h5
      have h4 := fat_false_of_tip h5
      simp only [specTipScan, h5, if_true, Option.some_inj] at h
      have hrun := parseLines_tipTrue rest { nd with tip := stripLabel "tip:" (jsTrim l) } tl
      simp only [parseLines, h1, h2, h3, h4, h5, Bool.false_eq_true, if_false, if_true]
      simpa [h] using hrun
    · have h' : specTipScan rest = some (c, cs) := by
        simpa [specTipScan, h5] using h
      by_cases h1 : matchesLabel "calories:" (jsTrim l)
      · simpa [parseLines, h1] using ih { nd with calories := stripLabel "calories:" (jsTrim l) } tl h'
      · by_cases h2 : matchesLabel "protein:" (jsTrim l)
        · simpa [parseLines, h1, h2] using ih { nd with protein := stripLabel "protein:" (jsTrim l) } tl h'
        · by_cases h3 : matchesLabel "carbs:" (jsTrim l)
          · simpa [parseLines, h1, h2, h3] using ih { nd with carbs := stripLabel "carbs:" (jsTrim l) } tl h'
          · by_cases h4 : matchesLabel "fat:" (jsTrim l)
            · simpa [parseLines, h1, h2, h3, h4] using ih { nd with fat := stripLabel "fat:" (jsTrim l) } tl h'
            · simpa [parseLines, h1, h2, h3, h4, h5] using ih nd tl h'

/-- If no line matches the calories label, the loop never writes the
calories field. -/
theorem parseLines_calories (lines : List String) (nd : NutritionData) (tf : Bool)
    (tl : List String) (h : ∀ l ∈ lines, matchesLabel "calories:" (jsTrim l) = false) :
    (parseLines lines nd tf tl).1.calories = nd.calories := by
  induction lines generalizing nd tf tl with
  | nil => simp [parseLines]
  | cons l rest ih =>
    have hl := h l (by simp)
    have hr : ∀ x ∈ rest, matchesLabel "calories:" (jsTrim x) = false :=
      fun x hx => h x (by simp [hx])
    by_cases h2 : matchesLabel "protein:" (jsTrim l)
    · simpa [parseLines, hl, h2] using ih { nd with protein := stripLabel "protein:" (jsTrim l) } tf tl hr
    · by_cases h3 : matchesLabel "carbs:" (jsTrim l)
      · simpa [parseLines, hl, h2, h3] using ih { nd with carbs := stripLabel "carbs:" (jsTrim l) } tf tl hr
      · by_cases h4 : matchesLabel "fat:" (jsTrim l)
        · simpa [parseLines, hl, h2, h3, h4] using ih { nd with fat := stripLabel "fat:" (jsTrim l) } tf tl hr
        · by_cases h5 : matchesLabel "tip:" (jsTrim l)
          · simpa [parseLines, hl, h2, h3, h4, h5] using ih { nd with tip := stripLabel "tip:" (jsTrim l) } true tl hr
          · simp only [parseLines, hl, h2, h3, h4, h5, Bool.false_eq_true, if_false]
            split
            · exact ih nd tf (tl ++ [jsTrim l]) hr
            · exact ih nd tf tl hr

/-- If no line matches the protein label, the loop never writes the
protein field. -/
theorem parseLines_protein (lines : List String) (nd : NutritionData) (tf : Bool)
    (tl : List String) (h : ∀ l ∈ lines, matchesLabel "protein:" (jsTrim l) = false) :
    (parseLines lines nd tf tl).1.protein = nd.protein := by
  induction lines generalizing nd tf tl with
  | nil => simp [parseLines]
  | cons l rest ih =>
    have hl := h l (by simp)
    have hr : ∀ x ∈ rest, matchesLabel "protein:" (jsTrim x) = false :=
      fun x hx => h x (by simp [hx])
    by_cases h1 : matchesLabel "calories:" (jsTrim l)
    · simpa [parseLines, hl, h1] using ih { nd with calories := stripLabel "calories:" (jsTrim l) } tf tl hr
    · by_cases h3 : matchesLabel "carbs:" (jsTrim l)
      · simpa [parseLines, hl, h1, h3] using ih { nd with carbs := stripLabel "carbs:" (jsTrim l) } tf tl hr
      · by_cases h4 : matchesLabel "fat:" (jsTrim l)
        · simpa [parseLines, hl, h1, h3, h4] using ih { nd with fat := stripLabel "fat:" (jsTrim l) } tf tl hr
        · by_cases h5 : matchesLabel "tip:" (jsTrim l)
          · simpa [parseLines, hl, h1, h3, h4, h5] using ih { nd with tip := stripLabel "tip:" (jsTrim l) } true tl hr
          · simp only [parseLines, hl, h1, h3, h4, h5, Bool.false_eq_true, if_false]
            split
            · exact ih nd tf (tl ++ [jsTrim l]) hr
            · exact ih nd tf tl hr

/-- If no line matches the carbs label, the loop never writes the
carbs field. -/
theorem parseLines_carbs (lines : List String) (nd : NutritionData) (tf : Bool)
    (tl : List String) (h : ∀ l ∈ lines, matchesLabel "carbs:" (jsTrim l) = false) :
    (parseLines lines nd tf tl).1.carbs = nd.carbs := by
  induction lines generalizing nd tf tl with
  | nil => simp [parseLines]
  | cons l rest ih =>
    have hl := h l (by simp)
    have hr : ∀ x ∈ rest, matchesLabel "carbs:" (jsTrim x) = false :=
      fun x hx => h x (by simp [hx])
    by_cases h1 : matchesLabel "calories:" (jsTrim l)
    · simpa [parseLines, hl, h1] using ih { nd with calories := stripLabel "calories:" (jsTrim l) } tf tl hr
    · by_cases h2 : matchesLabel "protein:" (jsTrim l)
      · simpa [parseLines, hl, h1, h2] using ih { nd with protein := stripLabel "protein:" (jsTrim l) } tf tl hr
      · by_cases h4 : matchesLabel "fat:" (jsTrim l)
        · simpa [parseLines, hl, h1, h2, h4] using ih { nd with fat := stripLabel "fat:" (jsTrim l) } tf tl hr
        · by_cases h5 : matchesLabel "tip:" (jsTrim l)
          · simpa [parseLines, hl, h1, h2, h4, h5] using ih { nd with tip := stripLabel "tip:" (jsTrim l) } true tl hr
          · simp only [parseLines, hl, h1, h2, h4, h5, Bool.false_eq_true, if_false]
            split
            · exact ih nd tf (tl ++ [jsTrim l]) hr
            · exact ih nd tf tl hr

/-- If no line matches the fat label, the loop never writes the
fat field. -/
theorem parseLines_fat (lines : List String) (nd : NutritionData) (tf : Bool)
    (tl : List String) (h : ∀ l ∈ lines, matchesLabel "fat:" (jsTrim l) = false) :
    (parseLines lines nd tf tl).1.fat = nd.fat := by
  induction lines generalizing nd tf tl with
  | nil => simp [parseLines]
  | cons l rest ih =>
    have hl := h l (by simp)
    have hr : ∀ x ∈ rest, matchesLabel "fat:" (jsTrim x) = false :=
      fun x hx => h x (by simp [hx])
    by_cases h1 : matchesLabel "calories:" (jsTrim l)
    · simpa [parseLines, hl, h1] using ih { nd with calories := stripLabel "calories:" (jsTrim l) } tf tl hr
    · by_cases h2 : matchesLabel "protein:" (jsTrim l)
      · simpa [parseLines, hl, h1, h2] using ih { nd with protein := stripLabel "protein:" (jsTrim l) } tf tl hr
      · by_cases h3 : matchesLabel "carbs:" (jsTrim l)
        · simpa [parseLines, hl, h1, h2, h3] using ih { nd with carbs := stripLabel "carbs:" (jsTrim l) } tf tl hr
        · by_cases h5 : matchesLabel "tip:" (jsTrim l)
          · simpa [parseLines, hl, h1, h2, h3, h5] using ih { nd with tip := stripLabel "tip:" (jsTrim l) } true tl hr
          · simp only [parseLines, hl, h1, h2, h3, h5, Bool.false_eq_true, if_false]
            split
            · exact ih nd tf (tl ++ [jsTrim l]) hr
            · exact ih nd tf tl hr

/-- The final record-update step of `parseNutritionResult` only touches
the tip field; a never-matched calories label leaves `calories` empty. -/
theorem parse_calories_empty (s : String)
    (h : ∀ l ∈ splitLines s, matchesLabel "calories:" (jsTrim l) = false) :
    (parseNutritionResult s).calories = "" := by
  have hc := parseLines_calories (splitLines s)
    { calories := "", protein := "", carbs := "", fat := "", tip := "" } false [] h
  simp only [parseNutritionResult]
  split
  · simpa using hc
  · simpa using hc

/-- A never-matched protein label leaves `protein` empty. -/
theorem parse_protein_empty (s : String)
    (h : ∀ l ∈ splitLines s, matchesLabel "protein:" (jsTrim l) = false) :
    (parseNutritionResult s).protein = "" := by
  have hc := parseLines_protein (splitLines s)
    { calories := "", protein := "", carbs := "", fat := "", tip := "" } false [] h
  simp only [parseNutritionResult]
  split
  · simpa using hc
  · simpa using hc

/-- A never-matched carbs label leaves `carbs` empty. -/
theorem parse_carbs_empty (s : String)
    (h : ∀ l ∈ splitLines s, matchesLabel "carbs:" (jsTrim l) = false) :
    (parseNutritionResult s).carbs = "" := by
  have hc := parseLines_carbs (splitLines s)
    { calories := "", protein := "", carbs := "", fat := "", tip := "" } false [] h
  simp only [parseNutritionResult]
  split
  · simpa using hc
  · simpa using hc

/-- A never-matched fat label leaves `fat` empty. -/
theorem parse_fat_empty (s : String)
    (h : ∀ l ∈ splitLines s, matchesLabel "fat:" (jsTrim l) = false) :
    (parseNutritionResult s).fat = "" := by
  have hc := parseLines_fat (splitLines s)
    { calories := "", protein := "", carbs := "", fat := "", tip := "" } false [] h
  simp only [parseNutritionResult]
  split
  · simpa using hc
  · simpa using hc

/-- A never-matched tip label leaves `tip` empty: the flag never flips,
so no continuation line is ever collected either. -/
theorem parse_tip_empty (s : String)
    (h : ∀ l ∈ splitLines s, matchesLabel "tip:" (jsTrim l) = false) :
    (parseNutritionResult s).tip = "" := by
  have hc := parseLines_tipFalse (splitLines s)
    { calories := "", protein := "", carbs := "", fat := "", tip := "" } [] h
  simp [parseNutritionResult, hc.1, hc.2.2]

/-- The parsed tip, whenever some line matched the tip label: the
remainder of the last `tip:` line, with all continuation lines appended
space-joined. -/
theorem parse_tip_characterization (s : String) (c : String) (cs : List String)
    (h : specTipScan (splitLines s) = some (c, cs)) :
    (parseNutritionResult s).tip =
      if cs.isEmpty then c else c ++ " " ++ joinWithSpace cs := by
  have hc := parseLines_scan (splitLines s)
    { calories := "", protein := "", carbs := "", fat := "", tip := "" } [] c cs h
  cases cs with
  | nil => simp [parseNutritionResult, hc.1, hc.2]
  | cons x xs => simp [parseNutritionResult, hc.1, hc.2]

/-- C1: `parseNutritionResult` is a total function (it is defined for
every input string and, by construction of `NutritionData`, always
returns a record with exactly five defined string fields); any field
whose label is never matched in the input equals the empty string. -/
theorem parser_totality_and_defaults (s : String) :
    ((∀ l ∈ splitLines s, matchesLabel "calories:" (jsTrim l) = false) →
      (parseNutritionResult s).calories = "")
  ∧ ((∀ l ∈ splitLines s, matchesLabel "protein:" (jsTrim l) = false) →
      (parseNutritionResult s).protein = "")
  ∧ ((∀ l ∈ splitLines s, matchesLabel "carbs:" (jsTrim l) = false) →
      (parseNutritionResult s).carbs = "")
  ∧ ((∀ l ∈ splitLines s, matchesLabel "fat:" (jsTrim l) = false) →
      (parseNutritionResult s).fat = "")
  ∧ ((∀ l ∈ splitLines s, matchesLabel "tip:" (jsTrim l) = false) →
      (parseNutritionResult s).tip = "") :=
  ⟨parse_calories_empty s, parse_protein_empty s, parse_carbs_empty s,
    parse_fat_empty s, parse_tip_empty s⟩

/-- Witness for C1: on an input matching no label, all five fields are
the empty string. -/
theorem parser_totality_and_defaults_witness :
    (parseNutritionResult "some prose\nabout food").calories = ""
  ∧ (parseNutritionResult "some prose\nabout food").protein = ""
  ∧ (parseNutritionResult "some prose\nabout food").carbs = ""
  ∧ (parseNutritionResult "some prose\nabout food").fat = ""
  ∧ (parseNutritionResult "some prose\nabout food").tip = "" :=
  ⟨(parser_totality_and_defaults "some prose\nabout food").1 (by decide),
   (parser_totality_and_defaults "some prose\nabout food").2.1 (by decide),
   (parser_totality_and_defaults "some prose\nabout food").2.2.1 (by decide),
   (parser_totality_and_defaults "some prose\nabout food").2.2.2.1 (by decide),
   (parser_totality_and_defaults "some prose\nabout food").2.2.2.2 (by decide)⟩

/-- C2: the five-line example parses to the expected record. -/
theorem parse_five_line_example :
    parseNutritionResult "Calories: 720 kcal\nProtein: 32g\nCarbs: 65g\nFat: 28g\nTip: Add veggies." =
      { calories := "720 kcal", protein := "32g", carbs := "65g", fat := "28g",
        tip := "Add veggies." } := by
  decide

/-- C3: once the tip label has been matched, each subsequent non-empty
trimmed line matching no label is appended to the tip field, joined by
single spaces and in encounter order: the parsed tip equals the last
`tip:` remainder followed by the space-joined continuation lines
(`specTipScan`/`specTipAfter` are the spec-side description of those);
in particular the two-line tip example joins with a single space. -/
theorem tip_continuation_join :
    (∀ s c cs, specTipScan (splitLines s) = some (c, cs) →
      (parseNutritionResult s).tip =
        if cs.isEmpty then c else c ++ " " ++ joinWithSpace cs)
  ∧ (parseNutritionResult "Tip: Eat more fiber.\nAlso drink water.").tip =
      "Eat more fiber. Also drink water." :=
  ⟨fun s c cs h => parse_tip_characterization s c cs h, by decide⟩

/-- Witness for C3: the characterization applied at a concrete input
with one continuation line. -/
theorem tip_continuation_join_witness :
    (parseNutritionResult "Tip: Eat slowly.\nChew well.").tip =
      if (["Chew well."] : List String).isEmpty then "Eat slowly."
      else "Eat slowly." ++ " " ++ joinWithSpace ["Chew well."] :=
  tip_continuation_join.1 "Tip: Eat slowly.\nChew well." "Eat slowly." ["Chew well."] (by decide)

/-- Counterexample to C4: on `"Tip: A\nX\nTip: B"` the resulting tip
field is NOT `"B"` — the loop overwrites the stored tip value, but the
continuation line `"X"` was collected separately and is still appended
after the loop, giving `"B X"`. -/
theorem tip_overwrite_counterexample :
    (parseNutritionResult "Tip: A\nX\nTip: B").tip ≠ "B"
  ∧ (parseNutritionResult "Tip: A\nX\nTip: B").tip = "B X" := by
  exact ⟨by decide, by decide⟩

/-- C4 (amended): a recurring `tip:` label overwrites the prior stored
tip value (last write wins: the remainder of the last `tip:` line is
`"B"`), but continuation lines collected before the overwrite are still
appended after the loop, so `"Tip: A\nX\nTip: B"` parses with tip
`"B X"`, not `"B"`. -/
theorem tip_overwrite_amended :
    specTipScan (splitLines "Tip: A\nX\nTip: B") = some ("B", ["X"])
  ∧ parseNutritionResult "Tip: A\nX\nTip: B" =
      { calories := "", protein := "", carbs := "", fat := "", tip := "B X" } := by
  exact ⟨by decide, by decide⟩

/-- C5: label matching is anchored to the start of the trimmed line.
If no line of the input starts (case-insensitively) with `"calories:"`
— e.g. the label only ever occurs mid-line, or without its colon — the
calories field stays empty, and the parser (a total function) does not
throw; concretely for a mid-line label and for a missing colon. -/
theorem label_matching_anchored :
    (∀ s, (∀ l ∈ splitLines s, matchesLabel "calories:" (jsTrim l) = false) →
      (parseNutritionResult s).calories = "")
  ∧ (parseNutritionResult "The meal has calories: 720 kcal").calories = ""
  ∧ (parseNutritionResult "Calories 720 kcal").calories = "" :=
  ⟨fun s h => parse_calories_empty s h, by decide, by decide⟩

/-- Witness for C5: anchoring applied at a concrete mid-line occurrence. -/
theorem label_matching_anchored_witness :
    (parseNutritionResult "count the calories: 9").calories = "" :=
  label_matching_anchored.1 "count the calories: 9" (by decide)

/-- C10: for every input whose `tip:` line leaves the empty remainder
and which is followed by at least one continuation line, the appended
join puts a single leading space character before the joined
continuation text in the tip field; in particular on
`"Tip:\nDrink water."`. -/
theorem tip_leading_space :
    (∀ s cs, specTipScan (splitLines s) = some ("", cs) → cs ≠ [] →
      (parseNutritionResult s).tip = " " ++ joinWithSpace cs)
  ∧ (parseNutritionResult "Tip:\nDrink water.").tip = " Drink water." := by
  constructor
  · intro s cs h hne
    have hc := parse_tip_characterization s "" cs h
    rw [hc, if_neg (by simpa using hne)]
    rfl
  · decide

/-- Witness for C10: the universal part applied at `"Tip:\nDrink water."`
with the continuation list `["Drink water."]`. -/
theorem tip_leading_space_witness :
    (parseNutritionResult "Tip:\nDrink water.").tip = " " ++ joinWithSpace ["Drink water."] :=
  tip_leading_space.1 "Tip:\nDrink water." ["Drink water."] (by decide) (by decide)

/-- `takeWhile`/`dropWhile` on a satisfied block followed by a
non-satisfying head: take exactly the block, drop to the remainder. -/
theorem takeWhile_dropWhile_append (p : Char → Bool) (ds b : List Char)
    (hds : ∀ c ∈ ds, p c = true) (hb : ∀ c, b.head? = some c → p c = false) :
    (ds ++ b).takeWhile p = ds ∧ (ds ++ b).dropWhile p = b := by
  induction ds with
  | nil =>
    cases b with
    | nil => simp
    | cons c cs => simp [List.takeWhile_cons, List.dropWhile_cons, hb c rfl]
  | cons d ds ih =>
    have hd : p d = true := hds d (by simp)
    have hds' : ∀ c ∈ ds, p c = true := fun c hc => hds c (by simp [hc])
    have := ih hds'
    simp [List.takeWhile_cons, List.dropWhile_cons, hd, this.1, this.2]

/-- The token scan skips any digit-free lead-in. -/
theorem firstNumericToken_skip (a t : List Char) (h : ∀ c ∈ a, c.isDigit = false) :
    firstNumericToken (a ++ t) = firstNumericToken t := by
  induction a with
  | nil => simp
  | cons c cs ih =>
    have hc := h c (by simp)
    have := ih (fun x hx => h x (by simp [hx]))
    simp [firstNumericToken, hc, this]

/-- A digit-free string has no numeric token. -/
theorem firstNumericToken_none (l : List Char) (h : ∀ c ∈ l, c.isDigit = false) :
    firstNumericToken l = none := by
  have := firstNumericToken_skip l [] h
  simpa using this

/-- `b` cannot extend a just-matched integer token: it starts neither
with a digit nor with a point followed by a digit. -/
def endsIntToken (b : List Char) : Bool :=
  match b with
  | [] => true
  | c :: b2 =>
    if c = '.' then
      match b2 with
      | [] => true
      | c2 :: _ => !c2.isDigit
    else !c.isDigit

/-- `b` cannot extend a just-matched decimal token: it does not start
with a digit. -/
def endsDecToken (b : List Char) : Bool :=
  match b with
  | [] => true
  | c :: _ => !c.isDigit

theorem endsIntToken_head (b : List Char) (hb : endsIntToken b = true) :
    ∀ c, b.head? = some c → c.isDigit = false := by
  intro c hc
  cases b with
  | nil => simp at hc
  | cons x xs =>
    have hxc : x = c := by simpa using hc
    rw [← hxc]
    by_cases hx : x = '.'
    · rw [hx]; decide
    · simp only [endsIntToken] at hb
      rw [if_neg hx] at hb
      simpa using hb

theorem endsDecToken_head (b : List Char) (hb : endsDecToken b = true) :
    ∀ c, b.head? = some c → c.isDigit = false := by
  intro c hc
  cases b with
  | nil => simp at hc
  | cons x xs =>
    have hxc : x = c := by simpa using hc
    rw [← hxc]
    simp only [endsDecToken] at hb
    simpa using hb

/-- The leftmost match on a maximal digit run followed by a
non-extending remainder is exactly that run. -/
theorem firstNumericToken_int (ds b : List Char) (hne : ds ≠ [])
    (hds : ∀ c ∈ ds, c.isDigit = true) (hb : endsIntToken b = true) :
    firstNumericToken (ds ++ b) = some ds := by
  cases ds with
  | nil => exact absurd rfl hne
  | cons d ds' =>
    have hd : d.isDigit = true := hds d (by simp)
    have hds' : ∀ c ∈ ds', c.isDigit = true := fun c hc => hds c (by simp [hc])
    have hsplit := takeWhile_dropWhile_append Char.isDigit ds' b hds' (endsIntToken_head b hb)
    rw [List.cons_append]
    simp only [firstNumericToken]
    rw [if_pos hd, hsplit.1, hsplit.2]
    cases b with
    | nil => rw [if_neg (by simp)]
    | cons x xs =>
      by_cases hx : x = '.'
      · subst hx
        rw [if_pos (by simp)]
        have hxs : xs.takeWhile Char.isDigit = [] := by
          cases xs with
          | nil => rfl
          | cons c2 b3 =>
            have hc2 : c2.isDigit = false := by
              simpa [endsIntToken] using hb
            simp [List.takeWhile_cons, hc2]
        simp only [List.drop_one, List.tail_cons, hxs]
        rw [if_pos (by simp)]
      · rw [if_neg (by simp [hx])]

/-- The leftmost match on a maximal digit run, a point, a maximal digit
run and a non-extending remainder is the full decimal token. -/
theorem firstNumericToken_dec (ds fs b : List Char) (hdne : ds ≠ []) (hfne : fs ≠ [])
    (hds : ∀ c ∈ ds, c.isDigit = true) (hfs : ∀ c ∈ fs, c.isDigit = true)
    (hb : endsDecToken b = true) :
    firstNumericToken (ds ++ ('.' :: fs) ++ b) = some (ds ++ ('.' :: fs)) := by
  cases ds with
  | nil => exact absurd rfl hdne
  | cons d ds' =>
    have hd : d.isDigit = true := hds d (by simp)
    have hds' : ∀ c ∈ ds', c.isDigit = true := fun c hc => hds c (by simp [hc])
    have hdot : ∀ c, ('.' :: (fs ++ b)).head? = some c → c.isDigit = false := by
      intro c hc
      have hxc : '.' = c := by simpa using hc
      rw [← hxc]; decide
    have hsplit := takeWhile_dropWhile_append Char.isDigit ds' ('.' :: (fs ++ b)) hds' hdot
    have hfsplit := takeWhile_dropWhile_append Char.isDigit fs b hfs (endsDecToken_head b hb)
    have hassoc : (d :: ds') ++ ('.' :: fs) ++ b = d :: (ds' ++ ('.' :: (fs ++ b))) := by
      simp
    rw [hassoc]
    simp only [firstNumericToken]
    rw [if_pos hd, hsplit.1, hsplit.2]
    rw [if_pos (by simp)]
    simp only [List.drop_one, List.tail_cons]
    rw [hfsplit.1]
    have hfsne : ¬(fs.isEmpty = true) := by
      cases fs with
      | nil => exact absurd rfl hfne
      | cons f fs' => simp
    rw [if_neg hfsne]

/-- `parseFloat` on a pure digit run. -/
theorem ratOfToken_int (ds : List Char) (hds : ∀ c ∈ ds, c.isDigit = true) :
    ratOfToken ds = natOfDigits ds := by
  have hsplit := takeWhile_dropWhile_append Char.isDigit ds [] hds (by intro c hc; simp at hc)
  simp only [List.append_nil] at hsplit
  simp [ratOfToken, hsplit.1, hsplit.2]

/-- `parseFloat` on a decimal token. -/
theorem ratOfToken_dec (ds fs : List Char) (hds : ∀ c ∈ ds, c.isDigit = true) :
    ratOfToken (ds ++ '.' :: fs) = natOfDigits ds + natOfDigits fs / 10 ^ fs.length := by
  have hdot : ∀ c, ('.' :: fs).head? = some c → c.isDigit = false := by
    intro c hc
    simp only [List.head?_cons, Option.some_inj] at hc
    subst hc; decide
  have hsplit := takeWhile_dropWhile_append Char.isDigit ds ('.' :: fs) hds hdot
  simp [ratOfToken, hsplit.1, hsplit.2]

/-- C6: `extractNumericValue` returns the value of the first contiguous
unsigned numeric token — digits with at most one decimal point, skipping
any digit-free lead-in, taking the maximal run, and ignoring everything
after it — and returns 0 when no digit occurs anywhere; with the spec's
concrete examples. -/
theorem extract_first_numeric_token :
    (∀ a ds b : List Char, (∀ c ∈ a, c.isDigit = false) → ds ≠ [] →
      (∀ c ∈ ds, c.isDigit = true) → endsIntToken b = true →
      extractNumericValue (String.mk (a ++ (ds ++ b))) = natOfDigits ds)
  ∧ (∀ a ds fs b : List Char, (∀ c ∈ a, c.isDigit = false) → ds ≠ [] →
      (∀ c ∈ ds, c.isDigit = true) → fs ≠ [] → (∀ c ∈ fs, c.isDigit = true) →
      endsDecToken b = true →
      extractNumericValue (String.mk (a ++ (ds ++ ('.' :: fs) ++ b))) =
        natOfDigits ds + natOfDigits fs / 10 ^ fs.length)
  ∧ (∀ s : String, (∀ c ∈ s.data, c.isDigit = false) → extractNumericValue s = 0)
  ∧ extractNumericValue "32g" = 32
  ∧ extractNumericValue "~720 kcal" = 720
  ∧ extractNumericValue "no data" = 0
  ∧ extractNumericValue "3.5g" = 7 / 2
  ∧ extractNumericValue "20-30g" = 20 := by
  refine ⟨?_, ?_, ?_, ?_, ?_, ?_, ?_, ?_⟩
  · intro a ds b ha hne hds hb
    have h1 : firstNumericToken (a ++ (ds ++ b)) = some ds := by
      rw [firstNumericToken_skip a (ds ++ b) ha]
      exact firstNumericToken_int ds b hne hds hb
    unfold extractNumericValue
    rw [show (String.mk (a ++ (ds ++ b))).data = a ++ (ds ++ b) from rfl, h1]
    simpa using ratOfToken_int ds hds
  · intro a ds fs b ha hdne hds hfne hfs hb
    have h1 : firstNumericToken (a ++ (ds ++ ('.' :: fs) ++ b)) = some (ds ++ ('.' :: fs)) := by
      rw [firstNumericToken_skip a (ds ++ ('.' :: fs) ++ b) ha]
      exact firstNumericToken_dec ds fs b hdne hfne hds hfs hb
    unfold extractNumericValue
    rw [show (String.mk (a ++ (ds ++ ('.' :: fs) ++ b))).data = a ++ (ds ++ ('.' :: fs) ++ b) from rfl, h1]
    simpa using ratOfToken_dec ds fs hds
  · intro s h
    unfold extractNumericValue
    rw [firstNumericToken_none s.data h]
  · have h : extractNumericValue "32g" = (natOfDigits ['3', '2'] : ℚ) := rfl
    rw [h, show natOfDigits ['3', '2'] = 32 from by decide]
    norm_num
  · have h : extractNumericValue "~720 kcal" = (natOfDigits ['7', '2', '0'] : ℚ) := rfl
    rw [h, show natOfDigits ['7', '2', '0'] = 720 from by decide]
    norm_num
  · rfl
  · have h : extractNumericValue "3.5g" =
        (natOfDigits ['3'] : ℚ) + (natOfDigits ['5'] : ℚ) / 10 ^ (['5'] : List Char).length := rfl
    rw [h, show natOfDigits ['3'] = 3 from by decide, show natOfDigits ['5'] = 5 from by decide,
      show (['5'] : List Char).length = 1 from by decide]
    norm_num
  · have h : extractNumericValue "20-30g" = (natOfDigits ['2', '0'] : ℚ) := rfl
    rw [h, show natOfDigits ['2', '0'] = 20 from by decide]
    norm_num

/-- Witness for C6: the int-token conjunct applied at `"~7g"`. -/
theorem extract_first_numeric_token_witness :
    extractNumericValue (String.mk (['~'] ++ (['7'] ++ ['g']))) = natOfDigits ['7'] :=
  extract_first_numeric_token.1 ['~'] ['7'] ['g'] (by decide) (by decide) (by decide) (by decide)

/-- Folding meal additions from an accumulator is the accumulator plus
the mapped sum. -/
theorem foldl_add_acc (f : MealEntry → ℚ) (ms : List MealEntry) (a : ℚ) :
    ms.foldl (fun sum meal => sum + f meal) a = a + (ms.map f).sum := by
  induction ms generalizing a with
  | nil => simp
  | cons m rest ih => simp [ih, add_assoc]

/-- Concrete meal entry used in the aggregation witnesses. -/
def mealA : MealEntry :=
  { id := 1, name := "Meal A", calories := 500, protein := 30, carbs := 50, fat := 20,
    timestamp := 0 }

/-- Concrete meal entry used in the aggregation witnesses. -/
def mealB : MealEntry :=
  { id := 2, name := "Meal B", calories := 300, protein := 10, carbs := 40, fat := 10,
    timestamp := 1 }

/-- C7: the daily totals are the independent componentwise sums over the
meal sequence; the empty sequence gives four zero totals, and two meals
of 500 and 300 calories total 800. -/
theorem daily_totals_componentwise :
    (∀ ms : List MealEntry,
      dailyTotalCalories ms = (ms.map MealEntry.calories).sum ∧
      dailyTotalProtein ms = (ms.map MealEntry.protein).sum ∧
      dailyTotalCarbs ms = (ms.map MealEntry.carbs).sum ∧
      dailyTotalFat ms = (ms.map MealEntry.fat).sum)
  ∧ (dailyTotalCalories [] = 0 ∧ dailyTotalProtein [] = 0 ∧
      dailyTotalCarbs [] = 0 ∧ dailyTotalFat [] = 0)
  ∧ dailyTotalCalories [mealA, mealB] = 800 := by
  refine ⟨fun ms => ⟨?_, ?_, ?_, ?_⟩, ⟨rfl, rfl, rfl, rfl⟩, ?_⟩
  · simpa using foldl_add_acc MealEntry.calories ms 0
  · simpa using foldl_add_acc MealEntry.protein ms 0
  · simpa using foldl_add_acc MealEntry.carbs ms 0
  · simpa using foldl_add_acc MealEntry.fat ms 0
  · norm_num [dailyTotalCalories, List.foldl_cons, List.foldl_nil, mealA, mealB]

/-- C8: aggregation is order-independent — permuting the meal list does
not change any of the four daily totals. -/
theorem daily_totals_order_independent (l1 l2 : List MealEntry) (h : l1.Perm l2) :
    dailyTotalCalories l1 = dailyTotalCalories l2 ∧
    dailyTotalProtein l1 = dailyTotalProtein l2 ∧
    dailyTotalCarbs l1 = dailyTotalCarbs l2 ∧
    dailyTotalFat l1 = dailyTotalFat l2 := by
  have e : ∀ (f : MealEntry → ℚ) (l : List MealEntry),
      l.foldl (fun sum meal => sum + f meal) 0 = (l.map f).sum := fun f l => by
    simpa using foldl_add_acc f l 0
  exact ⟨(e _ l1).trans (((h.map MealEntry.calories).sum_eq).trans (e _ l2).symm),
    (e _ l1).trans (((h.map MealEntry.protein).sum_eq).trans (e _ l2).symm),
    (e _ l1).trans (((h.map MealEntry.carbs).sum_eq).trans (e _ l2).symm),
    (e _ l1).trans (((h.map MealEntry.fat).sum_eq).trans (e _ l2).symm)⟩

/-- Witness for C8: swapping two concrete meals leaves all four totals
unchanged. -/
theorem daily_totals_order_independent_witness :
    dailyTotalCalories [mealA, mealB] = dailyTotalCalories [mealB, mealA] ∧
    dailyTotalProtein [mealA, mealB] = dailyTotalProtein [mealB, mealA] ∧
    dailyTotalCarbs [mealA, mealB] = dailyTotalCarbs [mealB, mealA] ∧
    dailyTotalFat [mealA, mealB] = dailyTotalFat [mealB, mealA] :=
  daily_totals_order_independent [mealA, mealB] [mealB, mealA] (List.Perm.swap mealB mealA [])

/-- C9: the chart signals "no data" exactly when the three magnitudes
extracted from protein, carbs and fat are all zero — so a pie is
rendered whenever at least one is non-zero — and the all-`"N/A"` record
triggers the fallback. -/
theorem chart_no_data_iff :
    (∀ nd : NutritionData,
      nutritionPieChart nd = ChartView.noData ↔
        (extractNumericValue nd.protein = 0 ∧ extractNumericValue nd.carbs = 0 ∧
          extractNumericValue nd.fat = 0))
  ∧ nutritionPieChart
      { calories := "N/A", protein := "N/A", carbs := "N/A", fat := "N/A", tip := "N/A" } =
      ChartView.noData := by
  constructor
  · intro nd
    simp only [nutritionPieChart]
    split
    · next h => simp [h]
    · next h => simp [h]
  · decide
